import Mathlib

/-
Verification of the shape-drawing engine (GeometryGoInterfaces.go).

The engine draws rectangles, triangles and circles onto a raster display
through a `screen` interface, and can serialize the display as a plain-text
PPM image.  Every definition below is a direct shallow embedding of the
corresponding source declaration: machine `int` becomes `Int`, the source's
`float64` arithmetic in `interpolate` and `insideCircle` is modelled in exact
arithmetic (rationals, and the algebraic square form of the sqrt comparison),
Go's `error` returns become explicit sum values, and in-place mutation of the
display becomes explicit state passing.
-/

namespace Draw

/-- Colors are readable names, exactly as the source's `type Color string`. -/
abbrev Color := String

/-- The fixed color table mapping a name to its RGB triplet
(source: `colorMap`).  `none` models absence from the Go map. -/
def colorMap (c : Color) : Option (Int × Int × Int) :=
  if c = "red" then some (255, 0, 0)
  else if c = "green" then some (0, 255, 0)
  else if c = "blue" then some (0, 0, 255)
  else if c = "yellow" then some (255, 255, 0)
  else if c = "orange" then some (255, 164, 0)
  else if c = "purple" then some (128, 0, 128)
  else if c = "brown" then some (165, 42, 42)
  else if c = "black" then some (0, 0, 0)
  else if c = "white" then some (255, 255, 255)
  else none

/-- True iff the color is not in the table (source: `colorUnknown`). -/
def colorUnknown (c : Color) : Bool := (colorMap c).isNone

/-- Integer coordinate pair (source: `type Point struct{ x, y int }`). -/
structure Point where
  x : Int
  y : Int
  deriving DecidableEq, Repr

/-- Axis-aligned rectangle: lower-left, upper-right, fill color. -/
structure Rectangle where
  ll : Point
  ur : Point
  c : Color
  deriving DecidableEq, Repr

/-- Triangle: three vertices and a fill color. -/
structure Triangle where
  pt0 : Point
  pt1 : Point
  pt2 : Point
  c : Color
  deriving DecidableEq, Repr

/-- Circle: center, integer radius, fill color. -/
structure Circle where
  center : Point
  r : Int
  c : Color
  deriving DecidableEq, Repr

/-- The two error values returned by drawing operations
(source: `outOfBoundsErr`, `colorUnknownErr`). -/
inductive DrawErr where
  | outOfBounds
  | invalidColor
  deriving DecidableEq, Repr

/-- The `screen` interface: the two operations the shape `draw` methods use.
`drawPixel` returning `.error` leaves the screen state unchanged, matching
the one implementation in the repository (`Display.drawPixel`). -/
structure Screen (σ : Type) where
  getMaxXY : σ → Int × Int
  drawPixel : σ → Int → Int → Color → Except DrawErr σ

/-- Concrete display: width `maxX`, height `maxY`, and the pixel grid
(source: `type Display struct`).  The Go `[][]Color` matrix is modelled as a
total function; every source access to it is bounds-guarded, so only the
values at `[0,maxX) × [0,maxY)` are ever observable. -/
structure Display where
  maxX : Int
  maxY : Int
  matrix : Int → Int → Color

/-- Source: `Display.drawPixel`.  Out-of-range coordinates and unknown colors
are rejected; otherwise exactly one cell is overwritten. -/
def Display.drawPixel (d : Display) (x y : Int) (c : Color) : Except DrawErr Display :=
  if x < 0 ∨ x ≥ d.maxX ∨ y < 0 ∨ y ≥ d.maxY then .error .outOfBounds
  else if colorUnknown c then .error .invalidColor
  else .ok { d with matrix := fun a b => if a = x ∧ b = y then c else d.matrix a b }

/-- Source: `Display.getPixel`. -/
def Display.getPixel (d : Display) (x y : Int) : Except DrawErr Color :=
  if x < 0 ∨ x ≥ d.maxX ∨ y < 0 ∨ y ≥ d.maxY then .error .outOfBounds
  else if colorUnknown (d.matrix x y) then .error .invalidColor
  else .ok (d.matrix x y)

/-- Source: `Display.clearScreen` — every in-range cell is reset to white. -/
def Display.clearScreen (d : Display) : Display :=
  { d with matrix := fun x y =>
      if 0 ≤ x ∧ x < d.maxX ∧ 0 ≤ y ∧ y < d.maxY then "white" else d.matrix x y }

/-- Source: the display's initialization method taking width and height —
the grid is allocated (Go zero value is the empty string) and then cleared
to white. -/
def Display.initDisplay (w h : Int) : Display :=
  Display.clearScreen { maxX := w, maxY := h, matrix := fun _ _ => "" }

/-- Source: `Display.getMaxXY`. -/
def Display.getMaxXY (d : Display) : Int × Int := (d.maxX, d.maxY)

/-- The `Display` instance of the `screen` interface. -/
def displayScreen : Screen Display where
  getMaxXY := Display.getMaxXY
  drawPixel := Display.drawPixel

/-- An adversarial implementation of the `screen` interface whose every
`drawPixel` call fails: it reports a 10×10 surface and rejects every write.
Used to separate the error-propagation behavior of the three shape `draw`
methods, which are generic in the interface exactly as in the source. -/
def failScreen : Screen Unit where
  getMaxXY := fun _ => (10, 10)
  drawPixel := fun _ _ _ _ => .error .outOfBounds

/-- The integers of `[lo, hi)` in increasing order: the index sequence of a
`for v := lo; v < hi; v++` loop. -/
def intRange (lo hi : Int) : List Int :=
  (List.range (hi - lo).toNat).map (fun n : Nat => lo + (n : Int))

/-- The integers of `[lo, hi]`: a `for v := lo; v <= hi; v++` loop. -/
def intRangeIncl (lo hi : Int) : List Int := intRange lo (hi + 1)

/-- Source: `outOfBounds(p, scn)` — true iff `p` lies outside the screen. -/
def outOfBounds {σ : Type} (S : Screen σ) (p : Point) (scn : σ) : Prop :=
  p.x < 0 ∨ p.x ≥ (S.getMaxXY scn).1 ∨ p.y < 0 ∨ p.y ≥ (S.getMaxXY scn).2

instance {σ : Type} (S : Screen σ) (p : Point) (scn : σ) :
    Decidable (outOfBounds S p scn) := by
  unfold outOfBounds; infer_instance

/-- A loop issuing `drawPixel` for each listed coordinate, aborting with the
first error and returning the state reached so far (the loop shape shared by
`Rectangle.draw` and `Triangle.draw`). -/
def drawPixels {σ : Type} (S : Screen σ) (scn : σ) (ps : List (Int × Int))
    (c : Color) : Option DrawErr × σ :=
  match ps with
  | [] => (none, scn)
  | (x, y) :: rest =>
    match S.drawPixel scn x y c with
    | .error e => (some e, scn)
    | .ok scn' => drawPixels S scn' rest c

/-- A loop issuing `drawPixel` for each listed coordinate and dropping each
call's result, as `Circle.draw`'s fill loop does. -/
def drawPixelsIgnore {σ : Type} (S : Screen σ) (scn : σ) (ps : List (Int × Int))
    (c : Color) : σ :=
  match ps with
  | [] => scn
  | (x, y) :: rest =>
    match S.drawPixel scn x y c with
    | .error _ => drawPixelsIgnore S scn rest c
    | .ok scn' => drawPixelsIgnore S scn' rest c

/-- The coordinates visited by `Rectangle.draw`'s fill loops: outer loop over
`x ∈ [ll.x, ur.x)`, inner loop over `y ∈ [ll.y, ur.y)`. -/
def rectPixels (r : Rectangle) : List (Int × Int) :=
  (intRange r.ll.x r.ur.x).flatMap (fun x =>
    (intRange r.ll.y r.ur.y).map (fun y => (x, y)))

/-- Source: `Rectangle.draw`.  The result is the returned error (if any)
paired with the screen state when the method returns. -/
def Rectangle.draw {σ : Type} (S : Screen σ) (r : Rectangle) (scn : σ) :
    Option DrawErr × σ :=
  if r.ll.x < 0 ∨ r.ll.y < 0 ∨ r.ur.x ≥ (S.getMaxXY scn).1 ∨ r.ur.y ≥ (S.getMaxXY scn).2 then
    (some .outOfBounds, scn)
  else if colorUnknown r.c then (some .invalidColor, scn)
  else drawPixels S scn (rectPixels r) r.c

/-- Exact (unnormalized) fraction `num/den`, standing in for the source's
`float64` values in `interpolate`. -/
structure Frac where
  num : Int
  den : Int
  deriving DecidableEq, Repr

/-- The fraction of an integer, the `float64(n)` conversion (exact). -/
def Frac.ofInt (n : Int) : Frac := ⟨n, 1⟩

/-- Exact fraction subtraction. -/
def Frac.sub (x y : Frac) : Frac := ⟨x.num * y.den - y.num * x.den, x.den * y.den⟩

/-- Exact fraction addition. -/
def Frac.add (x y : Frac) : Frac := ⟨x.num * y.den + y.num * x.den, x.den * y.den⟩

/-- Exact fraction multiplication. -/
def Frac.mul (x y : Frac) : Frac := ⟨x.num * y.num, x.den * y.den⟩

/-- Exact fraction division.  Division by zero is collapsed to `0`; the only
place the source divides by zero (`interpolate` with `l1 = l0`) multiplies
the quotient by `i = 0` before it is observed, so the collapsed value is
never visible — see the comment on `interpolate`. -/
def Frac.div (x y : Frac) : Frac :=
  if y.num = 0 then ⟨0, 1⟩ else ⟨x.num * y.den, x.den * y.num⟩

/-- Truncation toward zero, the behavior of Go's `int(d)` conversion on a
`float64` (`Int.tdiv` is T-division: rounding toward zero). -/
def Frac.trunc (x : Frac) : Int := Int.tdiv x.num x.den

/-- Source: `interpolate(l0, d0, l1, d1)`.  The source computes
`a := float64(d1-d0)/float64(l1-l0)` and accumulates `d += a`, emitting
`int(d)` for `l1-l0+1` iterations; in exact arithmetic the `i`-th emitted
value is `trunc(d0 + i*a)`, which is what this definition produces.  Exact
fractions stand in for `float64`: at every input where this development
evaluates `interpolate`, the source's float computation yields the same
truncated integers.  When `l1 = l0` the source divides by zero: `float64`
yields `±Inf`/`NaN` without faulting, and because the first sample is
emitted before the slope is ever added, the single emitted sample is
`int(float64(d0)) = d0`; here division by zero yields slope `0` and the
single emitted sample is likewise `d0`. -/
def interpolate (l0 d0 l1 d1 : Int) : List Int :=
  let a : Frac := Frac.div (Frac.sub (Frac.ofInt d1) (Frac.ofInt d0))
    (Frac.sub (Frac.ofInt l1) (Frac.ofInt l0))
  let n : Int := l1 - l0 + 1
  (List.range n.toNat).map (fun i : Nat =>
    Frac.trunc (Frac.add (Frac.ofInt d0) (Frac.mul (Frac.ofInt (i : Int)) a)))

/-- The three pairwise swaps `Triangle.draw` uses to sort its vertices by
ascending `y`: swap (0,1) if `y1<y0`, swap (0,2) if `y2<y0`, swap (1,2) if
`y2<y1`. -/
def sort3 (p0 p1 p2 : Point) : Point × Point × Point :=
  let t1 : Point × Point := if p1.y < p0.y then (p1, p0) else (p0, p1)
  let t2 : Point × Point := if p2.y < t1.1.y then (p2, t1.1) else (t1.1, p2)
  let t3 : Point × Point := if t2.2.y < t1.2.y then (t2.2, t1.2) else (t1.2, t2.2)
  (t2.1, t3.1, t3.2)

/-- The coordinates visited by `Triangle.draw`'s fill loops, in loop order:
vertices sorted by `y`, edges interpolated (`x01`, `x12`, `x02`), the short
edges concatenated (`x012 := append(x01[:len(x01)-1], x12...)`), left/right
chosen by comparing the midpoints, then one span `[left[yy-y0], right[yy-y0]]`
per scan line `yy ∈ [y0, y2]`.  `List.getD` carries a default `0` that is
never reached: both interpolations have length `y2-y0+1`. -/
def trianglePixels (p0 p1 p2 : Point) : List (Int × Int) :=
  let s := sort3 p0 p1 p2
  let x0 := s.1.x
  let y0 := s.1.y
  let x1 := s.2.1.x
  let y1 := s.2.1.y
  let x2 := s.2.2.x
  let y2 := s.2.2.y
  let x01 := interpolate y0 x0 y1 x1
  let x12 := interpolate y1 x1 y2 x2
  let x02 := interpolate y0 x0 y2 x2
  let x012 := x01.dropLast ++ x12
  let mid := x012.length / 2
  let lr : List Int × List Int :=
    if x02.getD mid 0 < x012.getD mid 0 then (x02, x012) else (x012, x02)
  (intRangeIncl y0 y2).flatMap (fun yy =>
    (intRangeIncl (lr.1.getD (yy - y0).toNat 0) (lr.2.getD (yy - y0).toNat 0)).map
      (fun xx => (xx, yy)))

/-- Source: `Triangle.draw`. -/
def Triangle.draw {σ : Type} (S : Screen σ) (t : Triangle) (scn : σ) :
    Option DrawErr × σ :=
  if outOfBounds S t.pt0 scn ∨ outOfBounds S t.pt1 scn ∨ outOfBounds S t.pt2 scn then
    (some .outOfBounds, scn)
  else if colorUnknown t.c then (some .invalidColor, scn)
  else drawPixels S scn (trianglePixels t.pt0 t.pt1 t.pt2) t.c

/-- Source: `insideCircle(center, tile, r)` — the source compares
`math.Sqrt(dx*dx+dy*dy) <= r` in `float64`.  Over the reals, for integer
`dx`, `dy`, `r` that comparison holds iff `0 ≤ r ∧ dx*dx+dy*dy ≤ r*r`, which
is the exact integer form used here (`sqrt` is nonnegative, and squaring is
monotone on nonnegatives). -/
def insideCircle (center tile : Point) (r : Int) : Bool :=
  decide (0 ≤ r ∧
    (center.x - tile.x) * (center.x - tile.x) +
      (center.y - tile.y) * (center.y - tile.y) ≤ r * r)

/-- The coordinates `Circle.draw` fills, in loop order: `y` over
`[0, center.y + r)` outer, `x` over `[0, center.x + r)` inner, keeping those
inside the circle. -/
def circlePixels (center : Point) (r : Int) : List (Int × Int) :=
  let height := center.y + r
  let width := center.x + r
  (intRange 0 height).flatMap (fun y =>
    ((intRange 0 width).filter (fun x => insideCircle center ⟨x, y⟩ r)).map
      (fun x => (x, y)))

/-- Source: `Circle.draw`.  Note the fill loop drops each `drawPixel` result,
so after validation the method always returns `nil`. -/
def Circle.draw {σ : Type} (S : Screen σ) (circ : Circle) (scn : σ) :
    Option DrawErr × σ :=
  if circ.center.x - circ.r < 0 ∨ circ.center.y - circ.r < 0 then
    (some .outOfBounds, scn)
  else if circ.center.x + circ.r ≥ (S.getMaxXY scn).1 ∨
      circ.center.y + circ.r ≥ (S.getMaxXY scn).2 then
    (some .outOfBounds, scn)
  else if colorUnknown circ.c then (some .invalidColor, scn)
  else (none, drawPixelsIgnore S scn (circlePixels circ.center circ.r) circ.c)

/-- One RGB triplet as `screenShot` prints it: `fmt.Fprintf("%d %d %d ", ...)`
(note the trailing space). -/
def rgbString (t : Int × Int × Int) : String :=
  toString t.1 ++ " " ++ toString t.2.1 ++ " " ++ toString t.2.2 ++ " "

/-- Source: `Display.screenShot` — the bytes written to the `.ppm` file: the
`P3` magic line, `maxX maxY`, `255`, then one line per first-axis index `r`
holding the triplets of `matrix[r][0..maxY)`, each line ended by a newline.
A cell's color is looked up in `colorMap`; Go map indexing yields the zero
value `(0,0,0)` on a miss, modelled by `Option.getD`.  File creation and I/O
failure are outside the model; only the serialized content is. -/
def Display.screenShot (d : Display) : String :=
  "P3\n" ++ toString d.maxX ++ " " ++ toString d.maxY ++ "\n" ++ "255\n" ++
  String.join ((intRange 0 d.maxX).map (fun r =>
    String.join ((intRange 0 d.maxY).map (fun c =>
      rgbString ((colorMap (d.matrix r c)).getD (0, 0, 0)))) ++ "\n"))

/-- Well-formedness of a display: every in-range cell holds a registry-valid
color. -/
def Display.wf (d : Display) : Prop :=
  ∀ x y : Int, 0 ≤ x → x < d.maxX → 0 ≤ y → y < d.maxY →
    colorUnknown (d.matrix x y) = false

/-- One mutation step on a display: a successful `drawPixel`, a
`clearScreen`, or any shape `draw` call (taking the state the method leaves
behind, whether it returned an error or not). -/
inductive DStep : Display → Display → Prop where
  | pixel (d d' : Display) (x y : Int) (c : Color) :
      d.drawPixel x y c = .ok d' → DStep d d'
  | clear (d : Display) : DStep d d.clearScreen
  | rect (d : Display) (r : Rectangle) : DStep d (Rectangle.draw displayScreen r d).2
  | tri (d : Display) (t : Triangle) : DStep d (Triangle.draw displayScreen t d).2
  | circ (d : Display) (k : Circle) : DStep d (Circle.draw displayScreen k d).2

/-- Displays reachable from `initialize` by any sequence of steps. -/
inductive Reachable : Display → Prop where
  | init (w h : Int) : 0 ≤ w → 0 ≤ h → Reachable (Display.initDisplay w h)
  | step (d d' : Display) : Reachable d → DStep d d' → Reachable d'

/-- Membership in a half-open integer loop range. -/
theorem mem_intRange {lo hi a : Int} : a ∈ intRange lo hi ↔ lo ≤ a ∧ a < hi := by
  unfold intRange
  simp only [List.mem_map, List.mem_range]
  constructor
  · rintro ⟨i, hi', rfl⟩
    omega
  · intro h
    exact ⟨(a - lo).toNat, by omega, by omega⟩

/-- Membership in a closed integer loop range. -/
theorem mem_intRangeIncl {lo hi a : Int} : a ∈ intRangeIncl lo hi ↔ lo ≤ a ∧ a ≤ hi := by
  unfold intRangeIncl
  rw [mem_intRange]
  omega

/-- An empty loop range. -/
theorem intRange_eq_nil {lo hi : Int} (h : hi ≤ lo) : intRange lo hi = [] := by
  unfold intRange
  have : (hi - lo).toNat = 0 := by omega
  rw [this]
  rfl

/-- A `drawPixel` call with in-range coordinates and a registry-valid color
succeeds and overwrites exactly the addressed cell. -/
theorem drawPixel_ok {d : Display} {x y : Int} {c : Color}
    (hx0 : 0 ≤ x) (hx : x < d.maxX) (hy0 : 0 ≤ y) (hy : y < d.maxY)
    (hc : colorUnknown c = false) :
    d.drawPixel x y c =
      .ok { d with matrix := fun a b => if a = x ∧ b = y then c else d.matrix a b } := by
  unfold Display.drawPixel
  rw [if_neg (by omega), if_neg (by simp [hc])]

/-- Characterization of the abort-on-error fill loop on a `Display`: when the
color is valid and every listed coordinate is in range, the loop reports no
error, preserves the dimensions, and paints exactly the listed cells. -/
theorem drawPixels_display_ok (c : Color) (hc : colorUnknown c = false) :
    ∀ (ps : List (Int × Int)) (d : Display),
      (∀ p ∈ ps, 0 ≤ p.1 ∧ p.1 < d.maxX ∧ 0 ≤ p.2 ∧ p.2 < d.maxY) →
      (drawPixels displayScreen d ps c).1 = none ∧
      (drawPixels displayScreen d ps c).2.maxX = d.maxX ∧
      (drawPixels displayScreen d ps c).2.maxY = d.maxY ∧
      ∀ x y : Int, (drawPixels displayScreen d ps c).2.matrix x y =
        if (x, y) ∈ ps then c else d.matrix x y := by
  intro ps
  induction ps with
  | nil =>
    intro d _
    simp [drawPixels]
  | cons p rest ih =>
    intro d hps
    obtain ⟨px, py⟩ := p
    have hp := hps (px, py) (List.mem_cons_self _ _)
    have hstep : displayScreen.drawPixel d px py c =
        .ok { d with matrix := fun a b => if a = px ∧ b = py then c else d.matrix a b } :=
      drawPixel_ok hp.1 hp.2.1 hp.2.2.1 hp.2.2.2 hc
    set d' : Display :=
      { d with matrix := fun a b => if a = px ∧ b = py then c else d.matrix a b } with hd'
    have hrest : ∀ p ∈ rest, 0 ≤ p.1 ∧ p.1 < d'.maxX ∧ 0 ≤ p.2 ∧ p.2 < d'.maxY := by
      intro q hq
      exact hps q (List.mem_cons_of_mem _ hq)
    have hfold : drawPixels displayScreen d ((px, py) :: rest) c =
        drawPixels displayScreen d' rest c := by
      rw [drawPixels, hstep]
    obtain ⟨h1, h2, h3, h4⟩ := ih d' hrest
    refine ⟨by rw [hfold]; exact h1, by rw [hfold]; exact h2, by rw [hfold]; exact h3, ?_⟩
    intro x y
    rw [hfold, h4 x y]
    by_cases hmem : (x, y) ∈ rest
    · simp [hmem, List.mem_cons]
    · by_cases hxy : x = px ∧ y = py
      · obtain ⟨rfl, rfl⟩ := hxy
        simp [hmem, d', List.mem_cons]
      · simp [hmem, hxy, d', List.mem_cons, Prod.mk.injEq]

/-- Characterization of the result-dropping fill loop on a `Display`: with a
valid color and in-range coordinates it behaves exactly like the aborting
loop — it paints the listed cells (no call fails, so nothing is dropped). -/
theorem drawPixelsIgnore_display_ok (c : Color) (hc : colorUnknown c = false) :
    ∀ (ps : List (Int × Int)) (d : Display),
      (∀ p ∈ ps, 0 ≤ p.1 ∧ p.1 < d.maxX ∧ 0 ≤ p.2 ∧ p.2 < d.maxY) →
      (drawPixelsIgnore displayScreen d ps c).maxX = d.maxX ∧
      (drawPixelsIgnore displayScreen d ps c).maxY = d.maxY ∧
      ∀ x y : Int, (drawPixelsIgnore displayScreen d ps c).matrix x y =
        if (x, y) ∈ ps then c else d.matrix x y := by
  intro ps
  induction ps with
  | nil =>
    intro d _
    simp [drawPixelsIgnore]
  | cons p rest ih =>
    intro d hps
    obtain ⟨px, py⟩ := p
    have hp := hps (px, py) (List.mem_cons_self _ _)
    have hstep : displayScreen.drawPixel d px py c =
        .ok { d with matrix := fun a b => if a = px ∧ b = py then c else d.matrix a b } :=
      drawPixel_ok hp.1 hp.2.1 hp.2.2.1 hp.2.2.2 hc
    set d' : Display :=
      { d with matrix := fun a b => if a = px ∧ b = py then c else d.matrix a b } with hd'
    have hrest : ∀ p ∈ rest, 0 ≤ p.1 ∧ p.1 < d'.maxX ∧ 0 ≤ p.2 ∧ p.2 < d'.maxY := by
      intro q hq
      exact hps q (List.mem_cons_of_mem _ hq)
    have hfold : drawPixelsIgnore displayScreen d ((px, py) :: rest) c =
        drawPixelsIgnore displayScreen d' rest c := by
      rw [drawPixelsIgnore, hstep]
    obtain ⟨h2, h3, h4⟩ := ih d' hrest
    refine ⟨by rw [hfold]; exact h2, by rw [hfold]; exact h3, ?_⟩
    intro x y
    rw [hfold, h4 x y]
    by_cases hmem : (x, y) ∈ rest
    · simp [hmem, List.mem_cons]
    · by_cases hxy : x = px ∧ y = py
      · obtain ⟨rfl, rfl⟩ := hxy
        simp [hmem, d', List.mem_cons]
      · simp [hmem, hxy, d', List.mem_cons, Prod.mk.injEq]

/-- A successful `drawPixel` preserves the dimensions, and — because only a
validated color can be written — well-formedness. -/
theorem drawPixel_wf {d d' : Display} {x y : Int} {c : Color}
    (h : d.drawPixel x y c = .ok d') :
    d'.maxX = d.maxX ∧ d'.maxY = d.maxY ∧ (d.wf → d'.wf) := by
  unfold Display.drawPixel at h
  by_cases h1 : x < 0 ∨ x ≥ d.maxX ∨ y < 0 ∨ y ≥ d.maxY
  · rw [if_pos h1] at h
    exact absurd h (by simp)
  · rw [if_neg h1] at h
    by_cases h2 : colorUnknown c = true
    · rw [if_pos h2] at h
      exact absurd h (by simp)
    · rw [if_neg h2] at h
      injection h with h
      subst h
      refine ⟨rfl, rfl, fun hwf => ?_⟩
      intro a b ha0 ha hb0 hb
      show colorUnknown (if a = x ∧ b = y then c else d.matrix a b) = false
      by_cases hab : a = x ∧ b = y
      · rw [if_pos hab]
        simpa using h2
      · rw [if_neg hab]
        exact hwf a b ha0 ha hb0 hb

/-- The abort-on-error fill loop preserves dimensions and well-formedness,
whether or not it hits an error. -/
theorem drawPixels_preserves (c : Color) :
    ∀ (ps : List (Int × Int)) (d : Display),
      (drawPixels displayScreen d ps c).2.maxX = d.maxX ∧
      (drawPixels displayScreen d ps c).2.maxY = d.maxY ∧
      (d.wf → (drawPixels displayScreen d ps c).2.wf) := by
  intro ps
  induction ps with
  | nil =>
    intro d
    exact ⟨rfl, rfl, fun h => h⟩
  | cons p rest ih =>
    intro d
    obtain ⟨px, py⟩ := p
    cases hstep : displayScreen.drawPixel d px py c with
    | error e =>
      rw [drawPixels, hstep]
      exact ⟨rfl, rfl, fun h => h⟩
    | ok d' =>
      rw [drawPixels, hstep]
      obtain ⟨m1, m2, m3⟩ := drawPixel_wf hstep
      obtain ⟨i1, i2, i3⟩ := ih d'
      exact ⟨i1.trans m1, i2.trans m2, fun h => i3 (m3 h)⟩

/-- The result-dropping fill loop preserves dimensions and well-formedness. -/
theorem drawPixelsIgnore_preserves (c : Color) :
    ∀ (ps : List (Int × Int)) (d : Display),
      (drawPixelsIgnore displayScreen d ps c).maxX = d.maxX ∧
      (drawPixelsIgnore displayScreen d ps c).maxY = d.maxY ∧
      (d.wf → (drawPixelsIgnore displayScreen d ps c).wf) := by
  intro ps
  induction ps with
  | nil =>
    intro d
    exact ⟨rfl, rfl, fun h => h⟩
  | cons p rest ih =>
    intro d
    obtain ⟨px, py⟩ := p
    cases hstep : displayScreen.drawPixel d px py c with
    | error e =>
      rw [drawPixelsIgnore, hstep]
      exact ih d
    | ok d' =>
      rw [drawPixelsIgnore, hstep]
      obtain ⟨m1, m2, m3⟩ := drawPixel_wf hstep
      obtain ⟨i1, i2, i3⟩ := ih d'
      exact ⟨i1.trans m1, i2.trans m2, fun h => i3 (m3 h)⟩

/-- Clearing the screen preserves the dimensions and establishes
well-formedness outright: every in-range cell becomes white. -/
theorem clearScreen_preserves (d : Display) :
    d.clearScreen.maxX = d.maxX ∧ d.clearScreen.maxY = d.maxY ∧ d.clearScreen.wf := by
  refine ⟨rfl, rfl, ?_⟩
  intro x y hx0 hx hy0 hy
  show colorUnknown
      (if 0 ≤ x ∧ x < d.maxX ∧ 0 ≤ y ∧ y < d.maxY then "white" else d.matrix x y) = false
  rw [if_pos ⟨hx0, hx, hy0, hy⟩]
  decide

/-- A freshly initialized display is well-formed. -/
theorem initialize_wf (w h : Int) : (Display.initDisplay w h).wf :=
  (clearScreen_preserves _).2.2

/-- A freshly initialized display holds white at every in-range cell. -/
theorem initialize_matrix_white {w h x y : Int}
    (hx0 : 0 ≤ x) (hx : x < w) (hy0 : 0 ≤ y) (hy : y < h) :
    (Display.initDisplay w h).matrix x y = "white" := by
  show (if 0 ≤ x ∧ x < w ∧ 0 ≤ y ∧ y < h then "white" else "") = "white"
  rw [if_pos ⟨hx0, hx, hy0, hy⟩]

/-- `Rectangle.draw` preserves dimensions and well-formedness of the display
it leaves behind, in every branch. -/
theorem rectDraw_preserves (r : Rectangle) (d : Display) :
    (Rectangle.draw displayScreen r d).2.maxX = d.maxX ∧
    (Rectangle.draw displayScreen r d).2.maxY = d.maxY ∧
    (d.wf → (Rectangle.draw displayScreen r d).2.wf) := by
  unfold Rectangle.draw
  split
  · exact ⟨rfl, rfl, fun h => h⟩
  · split
    · exact ⟨rfl, rfl, fun h => h⟩
    · exact drawPixels_preserves r.c (rectPixels r) d

/-- `Triangle.draw` preserves dimensions and well-formedness. -/
theorem triDraw_preserves (t : Triangle) (d : Display) :
    (Triangle.draw displayScreen t d).2.maxX = d.maxX ∧
    (Triangle.draw displayScreen t d).2.maxY = d.maxY ∧
    (d.wf → (Triangle.draw displayScreen t d).2.wf) := by
  unfold Triangle.draw
  split
  · exact ⟨rfl, rfl, fun h => h⟩
  · split
    · exact ⟨rfl, rfl, fun h => h⟩
    · exact drawPixels_preserves t.c (trianglePixels t.pt0 t.pt1 t.pt2) d

/-- `Circle.draw` preserves dimensions and well-formedness. -/
theorem circDraw_preserves (k : Circle) (d : Display) :
    (Circle.draw displayScreen k d).2.maxX = d.maxX ∧
    (Circle.draw displayScreen k d).2.maxY = d.maxY ∧
    (d.wf → (Circle.draw displayScreen k d).2.wf) := by
  unfold Circle.draw
  split
  · exact ⟨rfl, rfl, fun h => h⟩
  · split
    · exact ⟨rfl, rfl, fun h => h⟩
    · split
      · exact ⟨rfl, rfl, fun h => h⟩
      · exact drawPixelsIgnore_preserves k.c (circlePixels k.center k.r) d

/-- Every reachable display is well-formed. -/
theorem reachable_wf {d : Display} (h : Reachable d) : d.wf := by
  induction h with
  | init w h hw hh => exact initialize_wf w h
  | step d d' hr hs ih =>
    cases hs with
    | pixel a x y c hp => exact (drawPixel_wf hp).2.2 ih
    | clear => exact (clearScreen_preserves _).2.2
    | rect r => exact (rectDraw_preserves r _).2.2 ih
    | tri t => exact (triDraw_preserves t _).2.2 ih
    | circ k => exact (circDraw_preserves k _).2.2 ih

/-- On a well-formed display, an in-range `getPixel` returns the stored cell;
the defensive `InvalidColor` branch is unreachable. -/
theorem getPixel_of_wf {d : Display} (hwf : d.wf) {x y : Int}
    (hx0 : 0 ≤ x) (hx : x < d.maxX) (hy0 : 0 ≤ y) (hy : y < d.maxY) :
    d.getPixel x y = .ok (d.matrix x y) := by
  unfold Display.getPixel
  rw [if_neg (by omega), if_neg (by simp [hwf x y hx0 hx hy0 hy])]

/-- Membership in the rectangle's pixel list is exactly the half-open box. -/
theorem mem_rectPixels {r : Rectangle} {x y : Int} :
    (x, y) ∈ rectPixels r ↔
      (r.ll.x ≤ x ∧ x < r.ur.x ∧ r.ll.y ≤ y ∧ y < r.ur.y) := by
  unfold rectPixels
  simp only [List.mem_flatMap, List.mem_map, mem_intRange]
  constructor
  · rintro ⟨a, ha, b, hb, heq⟩
    injection heq with h1 h2
    subst h1
    subst h2
    exact ⟨ha.1, ha.2, hb.1, hb.2⟩
  · intro h
    exact ⟨x, ⟨h.1, h.2.1⟩, y, ⟨h.2.2.1, h.2.2.2⟩, rfl⟩

/-- Membership in the circle's pixel list: the scanned box from the origin,
intersected with the inside-circle test. -/
theorem mem_circlePixels {center : Point} {r : Int} {x y : Int} :
    (x, y) ∈ circlePixels center r ↔
      (0 ≤ y ∧ y < center.y + r ∧ 0 ≤ x ∧ x < center.x + r ∧
        insideCircle center ⟨x, y⟩ r = true) := by
  unfold circlePixels
  simp only [List.mem_flatMap, List.mem_map, List.mem_filter, mem_intRange]
  constructor
  · rintro ⟨b, hb, a, ⟨ha, hin⟩, heq⟩
    injection heq with h1 h2
    subst h1
    subst h2
    exact ⟨hb.1, hb.2, ha.1, ha.2, hin⟩
  · intro h
    exact ⟨y, ⟨h.1, h.2.1⟩, x, ⟨⟨h.2.2.1, h.2.2.2.1⟩, h.2.2.2.2⟩, rfl⟩

/-- The width of a freshly initialized display. -/
theorem initialize_maxX (w h : Int) : (Display.initDisplay w h).maxX = w := rfl

/-- The height of a freshly initialized display. -/
theorem initialize_maxY (w h : Int) : (Display.initDisplay w h).maxY = h := rfl

/-- C7: a rectangle with a registry-valid color that passes bounds validation
draws without error; afterwards every cell of the half-open box
`[ll.x, ur.x) × [ll.y, ur.y)` holds the fill color and every other cell of
the display is unchanged. -/
theorem rectangle_draw_fills_box (r : Rectangle) (d : Display)
    (h1 : 0 ≤ r.ll.x) (h2 : 0 ≤ r.ll.y) (h3 : r.ur.x < d.maxX) (h4 : r.ur.y < d.maxY)
    (hc : colorUnknown r.c = false) :
    (Rectangle.draw displayScreen r d).1 = none ∧
    (Rectangle.draw displayScreen r d).2.maxX = d.maxX ∧
    (Rectangle.draw displayScreen r d).2.maxY = d.maxY ∧
    ∀ x y : Int, (Rectangle.draw displayScreen r d).2.matrix x y =
      if r.ll.x ≤ x ∧ x < r.ur.x ∧ r.ll.y ≤ y ∧ y < r.ur.y then r.c
      else d.matrix x y := by
  have hbounds : ∀ p ∈ rectPixels r, 0 ≤ p.1 ∧ p.1 < d.maxX ∧ 0 ≤ p.2 ∧ p.2 < d.maxY := by
    intro p hp
    obtain ⟨px, py⟩ := p
    rw [mem_rectPixels] at hp
    exact ⟨by omega, by omega, by omega, by omega⟩
  have hdraw : Rectangle.draw displayScreen r d =
      drawPixels displayScreen d (rectPixels r) r.c := by
    unfold Rectangle.draw
    rw [if_neg (show ¬(r.ll.x < 0 ∨ r.ll.y < 0 ∨ r.ur.x ≥ (displayScreen.getMaxXY d).1 ∨
        r.ur.y ≥ (displayScreen.getMaxXY d).2) by
      show ¬(r.ll.x < 0 ∨ r.ll.y < 0 ∨ r.ur.x ≥ d.maxX ∨ r.ur.y ≥ d.maxY)
      omega), if_neg (by simp [hc])]
  obtain ⟨o1, o2, o3, o4⟩ := drawPixels_display_ok r.c hc (rectPixels r) d hbounds
  rw [hdraw]
  refine ⟨o1, o2, o3, ?_⟩
  intro x y
  rw [o4 x y]
  by_cases hin : r.ll.x ≤ x ∧ x < r.ur.x ∧ r.ll.y ≤ y ∧ y < r.ur.y
  · rw [if_pos (mem_rectPixels.mpr hin), if_pos hin]
  · rw [if_neg (fun hmem => hin (mem_rectPixels.mp hmem)), if_neg hin]

/-- C7 witness: the rectangle `ll=(2,2)`, `ur=(5,5)` in red on a fresh 10×10
display fills exactly `2 ≤ x < 5`, `2 ≤ y < 5`. -/
theorem rectangle_draw_fills_box_witness :
    (Rectangle.draw displayScreen ⟨⟨2, 2⟩, ⟨5, 5⟩, "red"⟩ (Display.initDisplay 10 10)).1 = none ∧
    (Rectangle.draw displayScreen ⟨⟨2, 2⟩, ⟨5, 5⟩, "red"⟩ (Display.initDisplay 10 10)).2.maxX =
      (Display.initDisplay 10 10).maxX ∧
    (Rectangle.draw displayScreen ⟨⟨2, 2⟩, ⟨5, 5⟩, "red"⟩ (Display.initDisplay 10 10)).2.maxY =
      (Display.initDisplay 10 10).maxY ∧
    ∀ x y : Int,
      (Rectangle.draw displayScreen ⟨⟨2, 2⟩, ⟨5, 5⟩, "red"⟩ (Display.initDisplay 10 10)).2.matrix x y =
        if 2 ≤ x ∧ x < 5 ∧ 2 ≤ y ∧ y < 5 then "red"
        else (Display.initDisplay 10 10).matrix x y :=
  rectangle_draw_fills_box ⟨⟨2, 2⟩, ⟨5, 5⟩, "red"⟩ (Display.initDisplay 10 10)
    (by decide) (by decide) (by decide) (by decide) (by decide)

/-- C2 counterexample: the rectangle `ll=(2,2)`, `ur=(-1,5)` has a corner
with a negative coordinate, yet on a fresh 10×10 display its draw does not
fail with OutOfBounds — it returns success with the display untouched,
because the validation predicate never checks the upper-right corner for
negativity and the fill loops are then empty. -/
theorem rectangle_negative_ur_accepted :
    Rectangle.draw displayScreen ⟨⟨2, 2⟩, ⟨-1, 5⟩, "red"⟩ (Display.initDisplay 10 10) =
      (none, Display.initDisplay 10 10) := by rfl

/-- C2 amended: a rectangle whose upper-right x is ≥ the surface width, whose
upper-right y is ≥ the surface height, or whose lower-left corner has a
negative coordinate, fails with OutOfBounds and leaves the display untouched
(the state returned is the input display: validation precedes every write). -/
theorem rectangle_out_of_bounds_rejected (r : Rectangle) (d : Display)
    (h : r.ll.x < 0 ∨ r.ll.y < 0 ∨ r.ur.x ≥ d.maxX ∨ r.ur.y ≥ d.maxY) :
    Rectangle.draw displayScreen r d = (some .outOfBounds, d) := by
  unfold Rectangle.draw
  rw [if_pos (show r.ll.x < 0 ∨ r.ll.y < 0 ∨ r.ur.x ≥ (displayScreen.getMaxXY d).1 ∨
    r.ur.y ≥ (displayScreen.getMaxXY d).2 from h)]

/-- C2 amended, witness: a rectangle with a negative lower-left corner on a
fresh 10×10 display is rejected with OutOfBounds and the display untouched. -/
theorem rectangle_out_of_bounds_rejected_witness :
    Rectangle.draw displayScreen ⟨⟨-1, 2⟩, ⟨5, 5⟩, "red"⟩ (Display.initDisplay 10 10) =
      (some .outOfBounds, Display.initDisplay 10 10) :=
  rectangle_out_of_bounds_rejected ⟨⟨-1, 2⟩, ⟨5, 5⟩, "red"⟩ (Display.initDisplay 10 10)
    (by decide)

/-- C10: a rectangle with a registry-valid color that passes bounds
validation but whose half-open box is empty (`ur.x ≤ ll.x` or
`ur.y ≤ ll.y`, which includes upper-right corners with negative coordinates
while the lower-left is in range) draws successfully and returns the display
exactly as it was. -/
theorem rectangle_empty_box_noop (r : Rectangle) (d : Display)
    (h1 : 0 ≤ r.ll.x) (h2 : 0 ≤ r.ll.y) (h3 : r.ur.x < d.maxX) (h4 : r.ur.y < d.maxY)
    (hc : colorUnknown r.c = false)
    (hempty : r.ur.x ≤ r.ll.x ∨ r.ur.y ≤ r.ll.y) :
    Rectangle.draw displayScreen r d = (none, d) := by
  have hnil : rectPixels r = [] := by
    unfold rectPixels
    rcases hempty with he | he
    · rw [intRange_eq_nil he]
      rfl
    · rw [List.flatMap_eq_nil_iff]
      intro x hx
      rw [intRange_eq_nil he]
      rfl
  unfold Rectangle.draw
  rw [if_neg (show ¬(r.ll.x < 0 ∨ r.ll.y < 0 ∨ r.ur.x ≥ (displayScreen.getMaxXY d).1 ∨
      r.ur.y ≥ (displayScreen.getMaxXY d).2) by
    show ¬(r.ll.x < 0 ∨ r.ll.y < 0 ∨ r.ur.x ≥ d.maxX ∨ r.ur.y ≥ d.maxY)
    omega), if_neg (by simp [hc]), hnil]
  rfl

/-- C10 witness: `ll=(2,2)`, `ur=(-1,-1)` (negative upper-right, in-range
lower-left) on a fresh 10×10 display: draw succeeds and changes nothing. -/
theorem rectangle_empty_box_noop_witness :
    Rectangle.draw displayScreen ⟨⟨2, 2⟩, ⟨-1, -1⟩, "red"⟩ (Display.initDisplay 10 10) =
      (none, Display.initDisplay 10 10) :=
  rectangle_empty_box_noop ⟨⟨2, 2⟩, ⟨-1, -1⟩, "red"⟩ (Display.initDisplay 10 10)
    (by decide) (by decide) (by decide) (by decide) (by decide) (Or.inl (by decide))

/-- C8: for each of the three shapes, a fill color outside the registry is
rejected with InvalidColor when the geometry passes the shape's bounds
validation, and the display is returned untouched (the color check precedes
every write). -/
theorem invalid_color_rejected (r : Rectangle) (t : Triangle) (k : Circle) (d : Display)
    (hr1 : 0 ≤ r.ll.x) (hr2 : 0 ≤ r.ll.y) (hr3 : r.ur.x < d.maxX) (hr4 : r.ur.y < d.maxY)
    (hrc : colorUnknown r.c = true)
    (ht0 : ¬ outOfBounds displayScreen t.pt0 d) (ht1 : ¬ outOfBounds displayScreen t.pt1 d)
    (ht2 : ¬ outOfBounds displayScreen t.pt2 d) (htc : colorUnknown t.c = true)
    (hk1 : 0 ≤ k.center.x - k.r) (hk2 : 0 ≤ k.center.y - k.r)
    (hk3 : k.center.x + k.r < d.maxX) (hk4 : k.center.y + k.r < d.maxY)
    (hkc : colorUnknown k.c = true) :
    Rectangle.draw displayScreen r d = (some .invalidColor, d) ∧
    Triangle.draw displayScreen t d = (some .invalidColor, d) ∧
    Circle.draw displayScreen k d = (some .invalidColor, d) := by
  refine ⟨?_, ?_, ?_⟩
  · unfold Rectangle.draw
    rw [if_neg (show ¬(r.ll.x < 0 ∨ r.ll.y < 0 ∨ r.ur.x ≥ (displayScreen.getMaxXY d).1 ∨
        r.ur.y ≥ (displayScreen.getMaxXY d).2) by
      show ¬(r.ll.x < 0 ∨ r.ll.y < 0 ∨ r.ur.x ≥ d.maxX ∨ r.ur.y ≥ d.maxY)
      omega), if_pos (by simp [hrc])]
  · unfold Triangle.draw
    rw [if_neg (by simp [ht0, ht1, ht2]), if_pos (by simp [htc])]
  · unfold Circle.draw
    rw [if_neg (by omega),
      if_neg (show ¬(k.center.x + k.r ≥ (displayScreen.getMaxXY d).1 ∨
          k.center.y + k.r ≥ (displayScreen.getMaxXY d).2) by
        show ¬(k.center.x + k.r ≥ d.maxX ∨ k.center.y + k.r ≥ d.maxY)
        omega), if_pos (by simp [hkc])]

/-- C8 witness: a rectangle, triangle and circle colored "pink" (not in the
registry), all with in-bounds geometry on a fresh 10×10 display, are each
rejected with InvalidColor and the display is untouched. -/
theorem invalid_color_rejected_witness :
    Rectangle.draw displayScreen ⟨⟨1, 1⟩, ⟨3, 3⟩, "pink"⟩ (Display.initDisplay 10 10) =
      (some .invalidColor, Display.initDisplay 10 10) ∧
    Triangle.draw displayScreen ⟨⟨0, 0⟩, ⟨2, 0⟩, ⟨0, 2⟩, "pink"⟩ (Display.initDisplay 10 10) =
      (some .invalidColor, Display.initDisplay 10 10) ∧
    Circle.draw displayScreen ⟨⟨5, 5⟩, 2, "pink"⟩ (Display.initDisplay 10 10) =
      (some .invalidColor, Display.initDisplay 10 10) :=
  invalid_color_rejected ⟨⟨1, 1⟩, ⟨3, 3⟩, "pink"⟩ ⟨⟨0, 0⟩, ⟨2, 0⟩, ⟨0, 2⟩, "pink"⟩
    ⟨⟨5, 5⟩, 2, "pink"⟩ (Display.initDisplay 10 10)
    (by decide) (by decide) (by decide) (by decide) (by decide)
    (by decide) (by decide) (by decide) (by decide)
    (by decide) (by decide) (by decide) (by decide) (by decide)

/-- C9: every display reachable from `initialize` by `drawPixel`,
`clearScreen` and shape draw calls holds a registry-valid color in every
in-range cell; consequently an in-range `getPixel` returns the stored cell
(the defensive InvalidColor branch is unreachable); and right after
`initialize` every in-range cell is white. -/
theorem display_invariant (d : Display) (h : Reachable d) :
    d.wf ∧
    (∀ x y : Int, 0 ≤ x → x < d.maxX → 0 ≤ y → y < d.maxY →
      d.getPixel x y = .ok (d.matrix x y)) ∧
    (∀ w hh x y : Int, 0 ≤ x → x < w → 0 ≤ y → y < hh →
      (Display.initDisplay w hh).matrix x y = "white") := by
  have hwf := reachable_wf h
  exact ⟨hwf, fun x y hx0 hx hy0 hy => getPixel_of_wf hwf hx0 hx hy0 hy,
    fun w hh x y hx0 hx hy0 hy => initialize_matrix_white hx0 hx hy0 hy⟩

/-- C9 witness: the invariant instantiated at the freshly initialized 3×3
display. -/
theorem display_invariant_witness :
    (Display.initDisplay 3 3).wf ∧
    (∀ x y : Int, 0 ≤ x → x < (Display.initDisplay 3 3).maxX →
      0 ≤ y → y < (Display.initDisplay 3 3).maxY →
      (Display.initDisplay 3 3).getPixel x y = .ok ((Display.initDisplay 3 3).matrix x y)) ∧
    (∀ w hh x y : Int, 0 ≤ x → x < w → 0 ≤ y → y < hh →
      (Display.initDisplay w hh).matrix x y = "white") :=
  display_invariant (Display.initDisplay 3 3)
    (Reachable.init 3 3 (by decide) (by decide))

/-- C6: `screenShot` of a freshly initialized 2×2 display serializes the
grid byte-exactly: the `P3` magic line, `2 2`, `255`, then one line per
first-axis index holding that axis's two triplets of `255 255 255` (each
triplet printed with a trailing space, as `fmt.Fprintf("%d %d %d ", ...)`
does). -/
theorem screenShot_fresh_2x2 :
    (Display.initDisplay 2 2).screenShot =
      "P3\n2 2\n255\n255 255 255 255 255 255 \n255 255 255 255 255 255 \n" := by rfl

/-- C4: when the two lowest vertices share a y-coordinate, the edge
interpolation runs over a zero-length span and yields the single-sample
sequence `[d0]` — the first sample is emitted before the undefined slope is
ever added, and the source's float64 division by zero yields ±Inf/NaN
without faulting — and drawing such a triangle completes: shown universally
for the interpolation and for a concrete degenerate triangle (two vertices
at `y = 1`) whose draw returns success. -/
theorem degenerate_span_single_sample :
    (∀ l0 d0 d1 : Int, interpolate l0 d0 l0 d1 = [d0]) ∧
    (Triangle.draw displayScreen ⟨⟨1, 1⟩, ⟨4, 1⟩, ⟨4, 4⟩, "green"⟩
        (Display.initDisplay 6 6)).1 = none := by
  constructor
  · intro l0 d0 d1
    have h1 : (l0 - l0 + 1).toNat = 1 := by omega
    simp only [interpolate]
    rw [h1]
    have h2 : List.range 1 = [0] := rfl
    rw [h2]
    simp [Frac.ofInt, Frac.sub, Frac.add, Frac.mul, Frac.div, Frac.trunc]
  · rfl

/-- C5: once its validations pass, `Circle.draw` succeeds against every
implementation of the screen interface, regardless of the result of each
individual `drawPixel` call (its fill loop drops them) — while
`Rectangle.draw` and `Triangle.draw` abort with the first per-pixel write
error, as the always-failing screen shows: both return OutOfBounds from
their first write. -/
theorem circle_drops_pixel_errors {σ : Type} (S : Screen σ) (scn : σ) (k : Circle)
    (h1 : 0 ≤ k.center.x - k.r) (h2 : 0 ≤ k.center.y - k.r)
    (h3 : k.center.x + k.r < (S.getMaxXY scn).1) (h4 : k.center.y + k.r < (S.getMaxXY scn).2)
    (hc : colorUnknown k.c = false) :
    (Circle.draw S k scn).1 = none ∧
    Rectangle.draw failScreen ⟨⟨0, 0⟩, ⟨2, 2⟩, "red"⟩ () = (some .outOfBounds, ()) ∧
    Triangle.draw failScreen ⟨⟨0, 0⟩, ⟨2, 0⟩, ⟨0, 2⟩, "red"⟩ () = (some .outOfBounds, ()) := by
  refine ⟨?_, by rfl, by rfl⟩
  unfold Circle.draw
  rw [if_neg (by omega),
    if_neg (show ¬(k.center.x + k.r ≥ (S.getMaxXY scn).1 ∨
      k.center.y + k.r ≥ (S.getMaxXY scn).2) by omega),
    if_neg (by simp [hc])]

/-- C5 witness: on the always-failing screen itself, a circle that passes
validation still reports success, while the rectangle and triangle draws
surface the first pixel error. -/
theorem circle_drops_pixel_errors_witness :
    (Circle.draw failScreen ⟨⟨5, 5⟩, 2, "red"⟩ ()).1 = none ∧
    Rectangle.draw failScreen ⟨⟨0, 0⟩, ⟨2, 2⟩, "red"⟩ () = (some .outOfBounds, ()) ∧
    Triangle.draw failScreen ⟨⟨0, 0⟩, ⟨2, 0⟩, ⟨0, 2⟩, "red"⟩ () = (some .outOfBounds, ()) :=
  circle_drops_pixel_errors failScreen () ⟨⟨5, 5⟩, 2, "red"⟩
    (by decide) (by decide) (by decide) (by decide) (by decide)

/-- C3: a circle passing bounds validation with radius `r ≥ 0` and a
registry-valid color draws successfully; afterwards a cell holds the fill
color exactly on the scanned region `0 ≤ x < cx+r`, `0 ≤ y < cy+r` whose
squared distance to the center is at most `r²` (the exact integer form of
the source's `sqrt((cx-x)²+(cy-y)²) ≤ r`, boundary inclusive); every other
cell is unchanged. -/
theorem circle_draw_fills_disk (k : Circle) (d : Display)
    (h1 : 0 ≤ k.center.x - k.r) (h2 : 0 ≤ k.center.y - k.r)
    (h3 : k.center.x + k.r < d.maxX) (h4 : k.center.y + k.r < d.maxY)
    (hr : 0 ≤ k.r) (hc : colorUnknown k.c = false) :
    (Circle.draw displayScreen k d).1 = none ∧
    (Circle.draw displayScreen k d).2.maxX = d.maxX ∧
    (Circle.draw displayScreen k d).2.maxY = d.maxY ∧
    ∀ x y : Int, (Circle.draw displayScreen k d).2.matrix x y =
      if 0 ≤ x ∧ x < k.center.x + k.r ∧ 0 ≤ y ∧ y < k.center.y + k.r ∧
          (k.center.x - x) * (k.center.x - x) + (k.center.y - y) * (k.center.y - y) ≤ k.r * k.r
        then k.c else d.matrix x y := by
  have hdraw : Circle.draw displayScreen k d =
      (none, drawPixelsIgnore displayScreen d (circlePixels k.center k.r) k.c) := by
    unfold Circle.draw
    rw [if_neg (by omega),
      if_neg (show ¬(k.center.x + k.r ≥ (displayScreen.getMaxXY d).1 ∨
          k.center.y + k.r ≥ (displayScreen.getMaxXY d).2) by
        show ¬(k.center.x + k.r ≥ d.maxX ∨ k.center.y + k.r ≥ d.maxY)
        omega),
      if_neg (by simp [hc])]
  have hbounds : ∀ p ∈ circlePixels k.center k.r,
      0 ≤ p.1 ∧ p.1 < d.maxX ∧ 0 ≤ p.2 ∧ p.2 < d.maxY := by
    intro p hp
    obtain ⟨px, py⟩ := p
    rw [mem_circlePixels] at hp
    exact ⟨hp.2.2.1, by omega, hp.1, by omega⟩
  obtain ⟨o1, o2, o3⟩ := drawPixelsIgnore_display_ok k.c hc (circlePixels k.center k.r) d hbounds
  have hd2 : (Circle.draw displayScreen k d).2 =
      drawPixelsIgnore displayScreen d (circlePixels k.center k.r) k.c := by
    rw [hdraw]
  have hiff : ∀ x y : Int, ((x, y) ∈ circlePixels k.center k.r ↔
      (0 ≤ x ∧ x < k.center.x + k.r ∧ 0 ≤ y ∧ y < k.center.y + k.r ∧
        (k.center.x - x) * (k.center.x - x) + (k.center.y - y) * (k.center.y - y) ≤ k.r * k.r)) := by
    intro x y
    rw [mem_circlePixels]
    unfold insideCircle
    simp only [decide_eq_true_eq]
    constructor
    · rintro ⟨hy0, hy, hx0, hx, hrd⟩
      exact ⟨hx0, hx, hy0, hy, hrd.2⟩
    · rintro ⟨hx0, hx, hy0, hy, hrd⟩
      exact ⟨hy0, hy, hx0, hx, hr, hrd⟩
  refine ⟨by rw [hdraw], by rw [hd2]; exact o1, by rw [hd2]; exact o2, ?_⟩
  intro x y
  rw [hd2, o3 x y]
  by_cases hin : 0 ≤ x ∧ x < k.center.x + k.r ∧ 0 ≤ y ∧ y < k.center.y + k.r ∧
      (k.center.x - x) * (k.center.x - x) + (k.center.y - y) * (k.center.y - y) ≤ k.r * k.r
  · rw [if_pos ((hiff x y).mpr hin), if_pos hin]
  · rw [if_neg (fun m => hin ((hiff x y).mp m)), if_neg hin]

/-- C3 witness: the circle centered at `(5,5)` with radius 3 in blue on a
fresh 12×12 display; the characterization at once gives that `(5,5)` and
`(5,2)` are filled while `(0,0)` keeps the background. -/
theorem circle_draw_fills_disk_witness :
    (Circle.draw displayScreen ⟨⟨5, 5⟩, 3, "blue"⟩ (Display.initDisplay 12 12)).1 = none ∧
    (Circle.draw displayScreen ⟨⟨5, 5⟩, 3, "blue"⟩ (Display.initDisplay 12 12)).2.maxX =
      (Display.initDisplay 12 12).maxX ∧
    (Circle.draw displayScreen ⟨⟨5, 5⟩, 3, "blue"⟩ (Display.initDisplay 12 12)).2.maxY =
      (Display.initDisplay 12 12).maxY ∧
    ∀ x y : Int,
      (Circle.draw displayScreen ⟨⟨5, 5⟩, 3, "blue"⟩ (Display.initDisplay 12 12)).2.matrix x y =
        if 0 ≤ x ∧ x < 8 ∧ 0 ≤ y ∧ y < 8 ∧ (5 - x) * (5 - x) + (5 - y) * (5 - y) ≤ 9
          then "blue" else (Display.initDisplay 12 12).matrix x y :=
  circle_draw_fills_disk ⟨⟨5, 5⟩, 3, "blue"⟩ (Display.initDisplay 12 12)
    (by decide) (by decide) (by decide) (by decide) (by decide) (by decide)

/-- A triangle whose vertices are all in bounds and whose color is valid
reduces to the fill loop over its scan-line pixel list. -/
theorem triangle_draw_eq (t : Triangle) (d : Display)
    (h0 : ¬ outOfBounds displayScreen t.pt0 d) (ha : ¬ outOfBounds displayScreen t.pt1 d)
    (hb : ¬ outOfBounds displayScreen t.pt2 d) (hc : colorUnknown t.c = false) :
    Triangle.draw displayScreen t d =
      drawPixels displayScreen d (trianglePixels t.pt0 t.pt1 t.pt2) t.c := by
  unfold Triangle.draw
  rw [if_neg (by simp [h0, ha, hb]), if_neg (by simp [hc])]

set_option maxHeartbeats 1000000 in
/-- C1: the triangle `(0,0)`, `(4,0)`, `(0,4)` with a registry-valid color,
drawn on a freshly initialized surface large enough to contain it, succeeds;
afterwards every in-range cell with `x + y ≤ 4`, `x ≥ 0`, `y ≥ 0` holds the
fill color and every other in-range cell still holds the white background. -/
theorem triangle_scanline_fill (w h : Int) (c : Color)
    (hw : 5 ≤ w) (hh : 5 ≤ h) (hc : colorUnknown c = false) :
    (Triangle.draw displayScreen ⟨⟨0, 0⟩, ⟨4, 0⟩, ⟨0, 4⟩, c⟩ (Display.initDisplay w h)).1 =
      none ∧
    ∀ x y : Int, 0 ≤ x → x < w → 0 ≤ y → y < h →
      (Triangle.draw displayScreen ⟨⟨0, 0⟩, ⟨4, 0⟩, ⟨0, 4⟩, c⟩
          (Display.initDisplay w h)).2.matrix x y =
        if 0 ≤ x ∧ 0 ≤ y ∧ x + y ≤ 4 then c else "white" := by
  have hL : trianglePixels ⟨0, 0⟩ ⟨4, 0⟩ ⟨0, 4⟩ =
      [((0 : Int), (0 : Int)), (1, 0), (2, 0), (3, 0), (4, 0), (0, 1), (1, 1), (2, 1), (3, 1),
        (0, 2), (1, 2), (2, 2), (0, 3), (1, 3), (0, 4)] := by decide
  have hmem : ∀ x y : Int,
      ((x, y) ∈ [((0 : Int), (0 : Int)), (1, 0), (2, 0), (3, 0), (4, 0), (0, 1), (1, 1), (2, 1),
        (3, 1), (0, 2), (1, 2), (2, 2), (0, 3), (1, 3), (0, 4)]) ↔
        (0 ≤ x ∧ 0 ≤ y ∧ x + y ≤ 4) := by
    intro x y
    simp only [List.mem_cons, List.not_mem_nil, or_false, Prod.mk.injEq]
    omega
  have hv0 : ¬ outOfBounds displayScreen (⟨⟨0, 0⟩, ⟨4, 0⟩, ⟨0, 4⟩, c⟩ : Triangle).pt0
      (Display.initDisplay w h) := by
    show ¬((0 : Int) < 0 ∨ (0 : Int) ≥ w ∨ (0 : Int) < 0 ∨ (0 : Int) ≥ h)
    omega
  have hv1 : ¬ outOfBounds displayScreen (⟨⟨0, 0⟩, ⟨4, 0⟩, ⟨0, 4⟩, c⟩ : Triangle).pt1
      (Display.initDisplay w h) := by
    show ¬((4 : Int) < 0 ∨ (4 : Int) ≥ w ∨ (0 : Int) < 0 ∨ (0 : Int) ≥ h)
    omega
  have hv2 : ¬ outOfBounds displayScreen (⟨⟨0, 0⟩, ⟨4, 0⟩, ⟨0, 4⟩, c⟩ : Triangle).pt2
      (Display.initDisplay w h) := by
    show ¬((0 : Int) < 0 ∨ (0 : Int) ≥ w ∨ (4 : Int) < 0 ∨ (4 : Int) ≥ h)
    omega
  have hdraw : Triangle.draw displayScreen ⟨⟨0, 0⟩, ⟨4, 0⟩, ⟨0, 4⟩, c⟩
      (Display.initDisplay w h) =
      drawPixels displayScreen (Display.initDisplay w h)
        [((0 : Int), (0 : Int)), (1, 0), (2, 0), (3, 0), (4, 0), (0, 1), (1, 1), (2, 1), (3, 1),
          (0, 2), (1, 2), (2, 2), (0, 3), (1, 3), (0, 4)] c := by
    rw [triangle_draw_eq _ _ hv0 hv1 hv2 hc,
      show trianglePixels (⟨⟨0, 0⟩, ⟨4, 0⟩, ⟨0, 4⟩, c⟩ : Triangle).pt0
          (⟨⟨0, 0⟩, ⟨4, 0⟩, ⟨0, 4⟩, c⟩ : Triangle).pt1
          (⟨⟨0, 0⟩, ⟨4, 0⟩, ⟨0, 4⟩, c⟩ : Triangle).pt2 =
        [((0 : Int), (0 : Int)), (1, 0), (2, 0), (3, 0), (4, 0), (0, 1), (1, 1), (2, 1), (3, 1),
          (0, 2), (1, 2), (2, 2), (0, 3), (1, 3), (0, 4)] from hL]
  have hbounds : ∀ p ∈ [((0 : Int), (0 : Int)), (1, 0), (2, 0), (3, 0), (4, 0), (0, 1), (1, 1),
      (2, 1), (3, 1), (0, 2), (1, 2), (2, 2), (0, 3), (1, 3), (0, 4)],
      0 ≤ p.1 ∧ p.1 < (Display.initDisplay w h).maxX ∧
        0 ≤ p.2 ∧ p.2 < (Display.initDisplay w h).maxY := by
    intro p hp
    obtain ⟨px, py⟩ := p
    have hreg := (hmem px py).mp hp
    rw [initialize_maxX, initialize_maxY]
    exact ⟨hreg.1, by omega, hreg.2.1, by omega⟩
  obtain ⟨o1, o2, o3, o4⟩ := drawPixels_display_ok c hc _ (Display.initDisplay w h) hbounds
  refine ⟨by rw [hdraw]; exact o1, ?_⟩
  intro x y hx0 hx hy0 hy
  rw [hdraw, o4 x y, initialize_matrix_white hx0 hx hy0 hy]
  by_cases hin : 0 ≤ x ∧ 0 ≤ y ∧ x + y ≤ 4
  · rw [if_pos ((hmem x y).mpr hin), if_pos hin]
  · rw [if_neg (fun m => hin ((hmem x y).mp m)), if_neg hin]

/-- C1 witness: the triangle drawn in red on a fresh 6×6 display. -/
theorem triangle_scanline_fill_witness :
    (Triangle.draw displayScreen ⟨⟨0, 0⟩, ⟨4, 0⟩, ⟨0, 4⟩, "red"⟩ (Display.initDisplay 6 6)).1 =
      none ∧
    ∀ x y : Int, 0 ≤ x → x < 6 → 0 ≤ y → y < 6 →
      (Triangle.draw displayScreen ⟨⟨0, 0⟩, ⟨4, 0⟩, ⟨0, 4⟩, "red"⟩
          (Display.initDisplay 6 6)).2.matrix x y =
        if 0 ≤ x ∧ 0 ≤ y ∧ x + y ≤ 4 then "red" else "white" :=
  triangle_scanline_fill 6 6 "red" (by decide) (by decide) (by decide)

end Draw
